import Mathlib

/-!
Verification development for the mir_eval segmentation-evaluation core:
the boundary metrics (detection, deviation) of boundary.py and the
frame-clustering structure metrics (pairwise, nce) of structure.py.

Times are embedded as rationals, entropy computations as reals.  Float
NaN results are embedded as the value none of an Option type.  Helper
functions of the shared utility module (not part of the covered source)
are modelled from the specification of their interfaces.
-/

/-- Boundary-module interval validation, from boundary.__validate_intervals:
every timestamp must be non-negative and every interval must have strictly
positive duration.  The n-by-2 shape check is enforced by the type
List (ℚ × ℚ).  Returns true exactly when no ValueError is raised. -/
def validate_intervals_boundary (iv : List (ℚ × ℚ)) : Bool :=
  (!iv.any (fun p => decide (p.1 < 0) || decide (p.2 < 0))) &&
    iv.all (fun p => decide (0 < p.2 - p.1))

/-- Modelled from the spec: util.intervals_to_boundaries, the boundary-set
transform owned by the external utility collaborator.  It returns the
deduplicated ascending sequence of distinct timestamps obtained from the
start of the first interval followed by the end of every interval. -/
def intervals_to_boundaries (iv : List (ℚ × ℚ)) : List ℚ :=
  ((match iv with
    | [] => ([] : List ℚ)
    | p :: _ => p.1 :: iv.map Prod.snd).insertionSort (· ≤ ·)).dedup

/-- Boundary set after the optional trim step of detection and deviation:
with trim set, the first and last boundary times are dropped. -/
def trimmedBoundaries (iv : List (ℚ × ℚ)) (trim : Bool) : List ℚ :=
  let b := intervals_to_boundaries iv
  if trim then (b.drop 1).dropLast else b

/-- Modelled from the spec: the matching predicate underlying
util.match_events.  M is a matching between the boundary lists rb and eb
when every pair of matched boundaries is within the window w of each other
and no boundary is used twice. -/
def isMatching (rb eb : List ℚ) (w : ℚ) (M : Finset (Fin rb.length × Fin eb.length)) : Prop :=
  (∀ p ∈ M, |rb.get p.1 - eb.get p.2| ≤ w) ∧
    (∀ p ∈ M, ∀ q ∈ M, p ≠ q → p.1 ≠ q.1 ∧ p.2 ≠ q.2)

instance (rb eb : List ℚ) (w : ℚ) (M : Finset (Fin rb.length × Fin eb.length)) :
    Decidable (isMatching rb eb w M) := by
  unfold isMatching; infer_instance

/-- Modelled from the spec: the size of the matching returned by
util.match_events, which has maximum cardinality under the window
constraint. -/
def matchCount (rb eb : List ℚ) (w : ℚ) : ℕ :=
  (Finset.univ.filter (isMatching rb eb w)).sup Finset.card

/-- Modelled from the spec: util.f_measure, the weighted harmonic mean
of precision and recall, defined as 0 when the denominator is 0. -/
def f_measure (p r beta : ℚ) : ℚ :=
  if beta ^ 2 * p + r = 0 then 0 else (1 + beta ^ 2) * p * r / (beta ^ 2 * p + r)

/-- Boundary detection hit-rate, from boundary.detection (lines 101-123):
derive boundary sets, optionally trim, return the zero triple when either
set is empty, otherwise precision, recall and f-measure of the maximum
matching under the window constraint. -/
def detection (ref est : List (ℚ × ℚ)) (window beta : ℚ) (trim : Bool) : ℚ × ℚ × ℚ :=
  let rb := trimmedBoundaries ref trim
  let eb := trimmedBoundaries est trim
  if rb = [] ∨ eb = [] then (0, 0, 0)
  else
    let m : ℚ := matchCount rb eb window
    let p := m / eb.length
    let r := m / rb.length
    (p, r, f_measure p r beta)

/-- Minimum of a list of rationals, as np.min over a non-empty axis;
returns 0 on the empty list, a case never reached below. -/
def listMin (l : List ℚ) : ℚ :=
  match l with
  | [] => 0
  | x :: xs => xs.foldl min x

/-- Median of a list of rationals, as np.median: the middle element of the
sorted list, or the mean of the two middle elements for even length. -/
def median (l : List ℚ) : ℚ :=
  let s := l.insertionSort (· ≤ ·)
  if l.length % 2 = 1 then s.getD (l.length / 2) 0
  else (s.getD (l.length / 2 - 1) 0 + s.getD (l.length / 2) 0) / 2

/-- Median boundary deviations, from boundary.deviation (lines 153-171):
derive boundary sets, optionally trim, return (none, none) (the NaN pair)
when either set is empty, otherwise the median over each reference
boundary of its distance to the closest estimated boundary, and the
median over each estimated boundary of its distance to the closest
reference boundary (row and column minima of the absolute-difference
outer matrix). -/
def deviation (ref est : List (ℚ × ℚ)) (trim : Bool) : Option ℚ × Option ℚ :=
  let rb := trimmedBoundaries ref trim
  let eb := trimmedBoundaries est trim
  if rb = [] ∨ eb = [] then (none, none)
  else
    (some (median (rb.map fun r => listMin (eb.map fun e => |r - e|))),
     some (median (eb.map fun e => listMin (rb.map fun r => |r - e|))))

/-- Absolute tolerance of np.allclose against 0.0 with default tolerances:
the comparison degenerates to an absolute bound of 1e-8. -/
def allcloseZero (x : ℚ) : Bool :=
  decide (|x| ≤ 1 / 100000000)

/-- np.allclose on two scalars with default tolerances:
abs(a - b) is at most atol + rtol * abs(b) with atol 1e-8, rtol 1e-5. -/
def allcloseQ (a b : ℚ) : Bool :=
  decide (|a - b| ≤ 1 / 100000000 + |b| / 100000)

/-- Per-sequence checks of the structure-module validator, from
structure.__validate_intervals plus the loop body of validate
(structure.py lines 46-55): negative timestamps, label-count mismatch,
then first start approximately 0.  There is no positive-duration check.
The n-by-2 shape check is enforced by the type. -/
def validate_pair (iv : List (ℚ × ℚ)) (l : List ℕ) : Except String Unit :=
  if iv.any (fun p => decide (p.1 < 0) || decide (p.2 < 0)) then
    Except.error ("Negative interval times found")
  else if iv.length ≠ l.length then
    Except.error ("Number of intervals does not match number of labels")
  else if allcloseZero (iv.headD (0, 0)).1 = false then
    Except.error ("Segment intervals do not start at 0")
  else Except.ok ()

/-- The structure-module validator, from structure.validate (lines 41-63):
both sequences are checked individually, in order, and only then the two
final end times are compared within floating tolerance. -/
def validate_structure (ri : List (ℚ × ℚ)) (rl : List ℕ)
    (ei : List (ℚ × ℚ)) (el : List ℕ) : Except String Unit :=
  match validate_pair ri rl with
  | Except.error e => Except.error e
  | Except.ok _ =>
    match validate_pair ei el with
    | Except.error e => Except.error e
    | Except.ok _ =>
      if allcloseQ (ri.getLastD (0, 0)).2 (ei.getLastD (0, 0)).2 = false then
        Except.error ("End times do not match")
      else Except.ok ()

/-- Modelled from the spec: the label component of
util.intervals_to_samples.  The track is sampled at uniform steps of the
frame size from 0, the interval count being rounded down to whole
multiples of the frame size (the partial remainder frame is dropped),
and each sample receives the label of the interval containing it. -/
def intervals_to_samples (iv : List (ℚ × ℚ)) (l : List ℕ) (fs : ℚ) : List ℕ :=
  let n := (⌊(iv.getLastD (0, 0)).2 / fs⌋).toNat
  (List.range n).map fun k =>
    ((((iv.zip l).find? fun q =>
        decide (q.1.1 ≤ (k : ℚ) * fs ∧ (k : ℚ) * fs < q.1.2)).map Prod.snd).getD 0)

/-- Modelled from the spec: the distinct label values of a sequence in
first-seen order, the id-to-label table of util.index_labels. -/
def distinctLabels (l : List ℕ) : List ℕ :=
  l.foldl (fun acc x => if x ∈ acc then acc else acc ++ [x]) []

/-- Modelled from the spec: the id component of util.index_labels, mapping
each label to a small integer id local to the sequence, ids assigned in
first-seen order. -/
def index_labels (l : List ℕ) : List ℕ :=
  l.map fun x => (distinctLabels l).indexOf x

/-- Count of true cells of np.triu(np.equal.outer(y, y)): positions
(i, j) with i ≤ j (np.triu with k = 0 keeps the main diagonal) whose
labels agree.  These are the sums agree_ref.sum() and agree_est.sum() of
structure.pairwise (lines 133-138). -/
def agreeCount (y : List ℕ) : ℕ :=
  (Finset.univ.filter fun p : Fin y.length × Fin y.length =>
    p.1 ≤ p.2 ∧ y.get p.1 = y.get p.2).card

/-- Count of same-label cells strictly above the diagonal (i < j), the
variant np.triu with k = 1 would produce; stated by the specification of
pairwise but not what the source computes. -/
def strictAgreeCount (y : List ℕ) : ℕ :=
  (Finset.univ.filter fun p : Fin y.length × Fin y.length =>
    p.1 < p.2 ∧ y.get p.1 = y.get p.2).card

/-- Count of cells true in both agreement matrices,
(agree_ref & agree_est).sum() of structure.pairwise (line 136).  The
shapes are indexed by the reference frame count; the estimated labels are
read with a default, matching numpy broadcasting only when the two frame
counts coincide. -/
def matchesCount (yr ye : List ℕ) : ℕ :=
  (Finset.univ.filter fun p : Fin yr.length × Fin yr.length =>
    p.1 ≤ p.2 ∧ yr.get p.1 = yr.get p.2 ∧ ye.getD p.1.val 0 = ye.getD p.2.val 0).card

/-- Strictly-above-diagonal variant of matchesCount, per the
specification of pairwise rather than the source. -/
def strictMatchesCount (yr ye : List ℕ) : ℕ :=
  (Finset.univ.filter fun p : Fin yr.length × Fin yr.length =>
    p.1 < p.2 ∧ yr.get p.1 = yr.get p.2 ∧ ye.getD p.1.val 0 = ye.getD p.2.val 0).card

/-- Pairwise frame-clustering scores on the two frame-label sequences,
from structure.pairwise lines 132-141: matches over the two triangular
agreement matrices, precision and recall by dividing by the estimated and
reference agreement sums, then the f-measure. -/
def pairwiseCore (yr ye : List ℕ) (beta : ℚ) : ℚ × ℚ × ℚ :=
  let m : ℚ := matchesCount yr ye
  let p := m / (agreeCount ye : ℚ)
  let r := m / (agreeCount yr : ℚ)
  (p, r, f_measure p r beta)

/-- Frame-clustering segmentation evaluation by pairwise agreement, from
structure.pairwise: the validated interval and label sequences are
sampled into frame labels, indexed, and scored. -/
def pairwise (ri : List (ℚ × ℚ)) (rl : List ℕ) (ei : List (ℚ × ℚ)) (el : List ℕ)
    (fs beta : ℚ) : ℚ × ℚ × ℚ :=
  pairwiseCore (index_labels (intervals_to_samples ri rl fs))
    (index_labels (intervals_to_samples ei el fs)) beta

/-- Modelled from the spec: util.f_measure over the reals, as applied to
the entropy-based scores of nce; weighted harmonic mean, 0 when the
denominator is 0. -/
noncomputable def fMeasureR (p r beta : ℝ) : ℝ :=
  if beta ^ 2 * p + r = 0 then 0 else (1 + beta ^ 2) * p * r / (beta ^ 2 * p + r)

/-- util.f_measure applied to possibly-NaN operands: float NaN is embedded
as none, and with a NaN operand the guard comparisons of f_measure are
false and the arithmetic propagates NaN, so the result is none. -/
noncomputable def fMeasureOpt (p r : Option ℝ) (beta : ℝ) : Option ℝ :=
  match p, r with
  | some a, some b => some (fMeasureR a b beta)
  | _, _ => none

/-- Entry of the normalized contingency table of structure.nce (lines
326-329): the count of frame positions jointly labeled a in the reference
and b in the estimate, divided by the frame count.  The row and column
index sets are the distinct reference and estimate labels; applied to the
outputs of index_labels these are exactly the classes of
sklearn contingency_matrix in ascending order. -/
noncomputable def contingencyF (yr ye : List ℕ) (a b : ℕ) : ℝ :=
  ((yr.zip ye).countP (fun q => decide (q.1 = a ∧ q.2 = b)) : ℝ) / (yr.length : ℝ)

/-- Row marginal p_ref of the contingency table (structure.nce line 335). -/
noncomputable def pRefF (yr ye : List ℕ) (a : ℕ) : ℝ :=
  ((distinctLabels ye).map fun b => contingencyF yr ye a b).sum

/-- Column marginal p_est of the contingency table (structure.nce line 334). -/
noncomputable def pEstF (yr ye : List ℕ) (b : ℕ) : ℝ :=
  ((distinctLabels yr).map fun a => contingencyF yr ye a b).sum

/-- scipy.stats.entropy of one axis-0 slice with base 2: the slice is
normalized by its sum and the Shannon entropy is taken, zero summands for
zero entries. -/
noncomputable def entropyL (v : List ℝ) : ℝ :=
  -(v.map fun x => x / v.sum * Real.logb 2 (x / v.sum)).sum

/-- The term p_est.dot(scipy.stats.entropy(contingency, base=2)) of
structure.nce (line 339): the conditional entropy of the reference labels
given the estimated labels, summed over estimate clusters. -/
noncomputable def trueGivenEst (yr ye : List ℕ) : ℝ :=
  ((distinctLabels ye).map fun b =>
    pEstF yr ye b * entropyL ((distinctLabels yr).map fun a => contingencyF yr ye a b)).sum

/-- The term p_ref.dot(scipy.stats.entropy(contingency.T, base=2)) of
structure.nce (line 340): the entropy of each contingency row (a column
of the transpose), weighted by the reference marginal. -/
noncomputable def predGivenRef (yr ye : List ℕ) : ℝ :=
  ((distinctLabels yr).map fun a =>
    pRefF yr ye a * entropyL ((distinctLabels ye).map fun b => contingencyF yr ye a b)).sum

/-- Scores of structure.nce (lines 331-352) on the two frame-label
sequences: the under- and over-clustering scores, NaN (none) for a
degenerate cluster count, and their f-measure. -/
noncomputable def nceCore (yr ye : List ℕ) (beta : ℝ) : Option ℝ × Option ℝ × Option ℝ :=
  let nRef := (distinctLabels yr).length
  let nEst := (distinctLabels ye).length
  let scoreUnder : Option ℝ :=
    if 1 < nRef then some (1 - trueGivenEst yr ye / Real.logb 2 (nRef : ℝ)) else none
  let scoreOver : Option ℝ :=
    if 1 < nEst then some (1 - predGivenRef yr ye / Real.logb 2 (nEst : ℝ)) else none
  (scoreOver, scoreUnder, fMeasureOpt scoreOver scoreUnder beta)

/-- Frame-clustering segmentation by normalized conditional entropy, from
structure.nce: the validated interval and label sequences are sampled
into frame labels, indexed, and scored; returns
(score_over, score_under, f_measure). -/
noncomputable def nce (ri : List (ℚ × ℚ)) (rl : List ℕ) (ei : List (ℚ × ℚ)) (el : List ℕ)
    (fs : ℚ) (beta : ℝ) : Option ℝ × Option ℝ × Option ℝ :=
  nceCore (index_labels (intervals_to_samples ri rl fs))
    (index_labels (intervals_to_samples ei el fs)) beta

/-- The base-2 conditional entropy H(estimate given reference) stated by
the specification: minus the sum over contingency cells of
P(a, b) * log2(P(a, b) / p_ref(a)), written from the normalized
contingency table.  This definition follows the words of the claim, to be
compared with the term the source computes from the transpose. -/
noncomputable def condEntropyEstGivenRef (yr ye : List ℕ) : ℝ :=
  -((distinctLabels yr).map fun a =>
    ((distinctLabels ye).map fun b =>
      contingencyF yr ye a b * Real.logb 2 (contingencyF yr ye a b / pRefF yr ye a)).sum).sum

theorem map_absSub_swap (L : List ℚ) (x : ℚ) :
    (L.map fun y => |x - y|) = L.map fun y => |y - x| := by
  induction L with
  | nil => rfl
  | cons a t ih => simp only [List.map_cons, ih, abs_sub_comm]

theorem map_listMin_swap (L1 L2 : List ℚ) :
    (L1.map fun x => listMin (L2.map fun y => |x - y|)) =
      L1.map fun x => listMin (L2.map fun y => |y - x|) := by
  induction L1 with
  | nil => rfl
  | cons a t ih => simp only [List.map_cons, ih, map_absSub_swap]

/-- C4: for valid interval sequences, whenever either derived boundary set
is empty after the optional trim step, detection returns the zero triple
and deviation returns the NaN pair (none, none); both functions are total,
so the degenerate case produces sentinel outputs, not errors. -/
theorem detection_deviation_empty_sentinels (ref est : List (ℚ × ℚ)) (w beta : ℚ)
    (trim : Bool)
    (hr : validate_intervals_boundary ref = true)
    (he : validate_intervals_boundary est = true)
    (hemp : trimmedBoundaries ref trim = [] ∨ trimmedBoundaries est trim = []) :
    detection ref est w beta trim = (0, 0, 0) ∧ deviation ref est trim = (none, none) := by
  constructor
  · simp only [detection]
    rw [if_pos hemp]
  · simp only [deviation]
    rw [if_pos hemp]

theorem detection_deviation_empty_sentinels_witness :
    validate_intervals_boundary [((0 : ℚ), (1 : ℚ))] = true ∧
    trimmedBoundaries [((0 : ℚ), (1 : ℚ))] true = [] ∧
    detection [((0 : ℚ), (1 : ℚ))] [((0 : ℚ), (1 : ℚ))] (1 / 2) 1 true = (0, 0, 0) ∧
    deviation [((0 : ℚ), (1 : ℚ))] [((0 : ℚ), (1 : ℚ))] true = (none, none) :=
  ⟨by norm_num [validate_intervals_boundary], by decide,
    (detection_deviation_empty_sentinels [((0 : ℚ), (1 : ℚ))] [((0 : ℚ), (1 : ℚ))] (1 / 2) 1 true
      (by norm_num [validate_intervals_boundary]) (by norm_num [validate_intervals_boundary])
      (Or.inl (by decide))).1,
    (detection_deviation_empty_sentinels [((0 : ℚ), (1 : ℚ))] [((0 : ℚ), (1 : ℚ))] (1 / 2) 1 true
      (by norm_num [validate_intervals_boundary]) (by norm_num [validate_intervals_boundary])
      (Or.inl (by decide))).2⟩

/-- C7: swapping the two interval-sequence arguments of deviation swaps
the two outputs: the matrix of absolute boundary distances transposes, so
the row-minimum medians and column-minimum medians trade places. -/
theorem deviation_swap (a b : List (ℚ × ℚ)) (trim : Bool) :
    deviation b a trim = ((deviation a b trim).2, (deviation a b trim).1) := by
  simp only [deviation]
  by_cases h : trimmedBoundaries a trim = [] ∨ trimmedBoundaries b trim = []
  · rw [if_pos (Or.symm h), if_pos h]
  · rw [if_neg (fun hc => h (Or.symm hc)), if_neg h]
    exact Prod.ext (congrArg some (congrArg median (map_listMin_swap _ _)))
      (congrArg some (congrArg median (map_listMin_swap _ _).symm))

/-- C6: with both post-trim boundary sets non-empty, detection returns
precision equal to the maximum matching size over the estimated boundary
count, recall equal to the same size over the reference boundary count,
and the weighted f-measure of the two (0 when its denominator is 0). -/
theorem detection_formula (ref est : List (ℚ × ℚ)) (w beta : ℚ) (trim : Bool)
    (hr : validate_intervals_boundary ref = true)
    (he : validate_intervals_boundary est = true)
    (hrn : trimmedBoundaries ref trim ≠ [])
    (hen : trimmedBoundaries est trim ≠ []) :
    detection ref est w beta trim =
      ((matchCount (trimmedBoundaries ref trim) (trimmedBoundaries est trim) w : ℚ) /
         (trimmedBoundaries est trim).length,
       (matchCount (trimmedBoundaries ref trim) (trimmedBoundaries est trim) w : ℚ) /
         (trimmedBoundaries ref trim).length,
       f_measure
         ((matchCount (trimmedBoundaries ref trim) (trimmedBoundaries est trim) w : ℚ) /
           (trimmedBoundaries est trim).length)
         ((matchCount (trimmedBoundaries ref trim) (trimmedBoundaries est trim) w : ℚ) /
           (trimmedBoundaries ref trim).length)
         beta) := by
  simp only [detection]
  rw [if_neg (not_or.mpr ⟨hrn, hen⟩)]

theorem detection_formula_witness :
    validate_intervals_boundary [((0 : ℚ), (1 : ℚ))] = true ∧
    trimmedBoundaries [((0 : ℚ), (1 : ℚ))] false ≠ [] ∧
    detection [((0 : ℚ), (1 : ℚ))] [((0 : ℚ), (1 : ℚ))] (1 / 2) 1 false =
      ((matchCount (trimmedBoundaries [((0 : ℚ), (1 : ℚ))] false)
          (trimmedBoundaries [((0 : ℚ), (1 : ℚ))] false) (1 / 2) : ℚ) /
         (trimmedBoundaries [((0 : ℚ), (1 : ℚ))] false).length,
       (matchCount (trimmedBoundaries [((0 : ℚ), (1 : ℚ))] false)
          (trimmedBoundaries [((0 : ℚ), (1 : ℚ))] false) (1 / 2) : ℚ) /
         (trimmedBoundaries [((0 : ℚ), (1 : ℚ))] false).length,
       f_measure
         ((matchCount (trimmedBoundaries [((0 : ℚ), (1 : ℚ))] false)
             (trimmedBoundaries [((0 : ℚ), (1 : ℚ))] false) (1 / 2) : ℚ) /
            (trimmedBoundaries [((0 : ℚ), (1 : ℚ))] false).length)
         ((matchCount (trimmedBoundaries [((0 : ℚ), (1 : ℚ))] false)
             (trimmedBoundaries [((0 : ℚ), (1 : ℚ))] false) (1 / 2) : ℚ) /
            (trimmedBoundaries [((0 : ℚ), (1 : ℚ))] false).length)
         1) :=
  ⟨by norm_num [validate_intervals_boundary], by decide,
    detection_formula _ _ _ _ _ (by norm_num [validate_intervals_boundary])
      (by norm_num [validate_intervals_boundary]) (by decide) (by decide)⟩

theorem validate_pair_ok_iff (iv : List (ℚ × ℚ)) (l : List ℕ) :
    validate_pair iv l = Except.ok () ↔
      ((∀ p ∈ iv, 0 ≤ p.1 ∧ 0 ≤ p.2) ∧ iv.length = l.length ∧
        |(iv.headD (0, 0)).1| ≤ 1 / 100000000) := by
  unfold validate_pair
  split_ifs with h1 h2 h3
  · simp only [reduceCtorEq, false_iff]
    intro hc
    obtain ⟨p, hp, hneg⟩ := List.any_eq_true.mp h1
    rcases Bool.or_eq_true_iff.mp hneg with hn | hn
    · exact absurd (hc.1 p hp).1 (not_le.mpr (of_decide_eq_true hn))
    · exact absurd (hc.1 p hp).2 (not_le.mpr (of_decide_eq_true hn))
  · simp only [reduceCtorEq, false_iff]
    exact fun hc => h2 hc.2.1
  · simp only [reduceCtorEq, false_iff]
    intro hc
    have ht : allcloseZero (iv.headD (0, 0)).1 = true := by
      unfold allcloseZero
      exact decide_eq_true hc.2.2
    rw [h3] at ht
    exact Bool.false_ne_true ht
  · simp only [true_iff]
    have hfalse : iv.any (fun p => decide (p.1 < 0) || decide (p.2 < 0)) = false :=
      Bool.eq_false_iff.mpr h1
    refine ⟨?_, by omega, ?_⟩
    · intro p hp
      have hb := Bool.or_eq_false_iff.mp (Bool.eq_false_iff.mpr (List.any_eq_false.mp hfalse p hp))
      exact ⟨not_lt.mp (of_decide_eq_false hb.1), not_lt.mp (of_decide_eq_false hb.2)⟩
    · rcases Bool.eq_false_or_eq_true (allcloseZero (iv.headD (0, 0)).1) with ht | hf
      · unfold allcloseZero at ht
        exact of_decide_eq_true ht
      · exact absurd hf h3

/-- C5: acceptance characterization of the structure-metric validator
guarding pairwise, ari, mutual_information and nce.  On non-empty input
sequences it accepts exactly when all timestamps are non-negative, each
label count equals its interval count, each first start is within 1e-8 of
0, and the two final end times agree within np.allclose tolerance; there
is no positive-duration condition, so non-positive-duration intervals are
not rejected.  The two extra conjuncts pin the control flow: a failed
individual check short-circuits, so the end-time comparison runs only
after both sequences pass their own checks. -/
theorem validate_structure_characterization (ri : List (ℚ × ℚ)) (rl : List ℕ)
    (ei : List (ℚ × ℚ)) (el : List ℕ) (hri : ri ≠ []) (hei : ei ≠ []) :
    (validate_structure ri rl ei el = Except.ok () ↔
      ((∀ p ∈ ri, 0 ≤ p.1 ∧ 0 ≤ p.2) ∧ ri.length = rl.length ∧
        |(ri.headD (0, 0)).1| ≤ 1 / 100000000 ∧
        (∀ p ∈ ei, 0 ≤ p.1 ∧ 0 ≤ p.2) ∧ ei.length = el.length ∧
        |(ei.headD (0, 0)).1| ≤ 1 / 100000000 ∧
        |(ri.getLastD (0, 0)).2 - (ei.getLastD (0, 0)).2| ≤
          1 / 100000000 + |(ei.getLastD (0, 0)).2| / 100000)) ∧
    (∀ e, validate_pair ri rl = Except.error e →
      validate_structure ri rl ei el = Except.error e) ∧
    (∀ e, validate_pair ri rl = Except.ok () → validate_pair ei el = Except.error e →
      validate_structure ri rl ei el = Except.error e) := by
  refine ⟨?_, ?_, ?_⟩
  · unfold validate_structure
    cases hvr : validate_pair ri rl with
    | error e =>
      simp only [reduceCtorEq, false_iff]
      intro hc
      have hok : validate_pair ri rl = Except.ok () :=
        (validate_pair_ok_iff ri rl).mpr ⟨hc.1, hc.2.1, hc.2.2.1⟩
      rw [hvr] at hok
      exact absurd hok (by simp)
    | ok u =>
      cases u
      have hr := (validate_pair_ok_iff ri rl).mp hvr
      cases hve : validate_pair ei el with
      | error e =>
        simp only [reduceCtorEq, false_iff]
        intro hc
        have hok : validate_pair ei el = Except.ok () :=
          (validate_pair_ok_iff ei el).mpr ⟨hc.2.2.2.1, hc.2.2.2.2.1, hc.2.2.2.2.2.1⟩
        rw [hve] at hok
        exact absurd hok (by simp)
      | ok v =>
        cases v
        have he := (validate_pair_ok_iff ei el).mp hve
        split_ifs with hcl
        · simp only [reduceCtorEq, false_iff]
          intro hc
          have ht : allcloseQ (ri.getLastD (0, 0)).2 (ei.getLastD (0, 0)).2 = true := by
            unfold allcloseQ
            exact decide_eq_true hc.2.2.2.2.2.2
          rw [hcl] at ht
          exact Bool.false_ne_true ht
        · simp only [true_iff]
          refine ⟨hr.1, hr.2.1, hr.2.2, he.1, he.2.1, he.2.2, ?_⟩
          rcases Bool.eq_false_or_eq_true
              (allcloseQ (ri.getLastD (0, 0)).2 (ei.getLastD (0, 0)).2) with ht | hf
          · unfold allcloseQ at ht
            exact of_decide_eq_true ht
          · exact absurd hf hcl
  · intro e h
    unfold validate_structure
    rw [h]
  · intro e h1 h2
    unfold validate_structure
    rw [h1, h2]

theorem validate_structure_characterization_witness :
    ([((0 : ℚ), (2 : ℚ)), ((2 : ℚ), (2 : ℚ))] ≠ ([] : List (ℚ × ℚ))) ∧
    ((2 : ℚ) - 2 ≤ 0) ∧
    validate_structure [((0 : ℚ), (2 : ℚ)), ((2 : ℚ), (2 : ℚ))] [0, 1]
      [((0 : ℚ), (2 : ℚ))] [7] = Except.ok () :=
  ⟨by decide, by norm_num,
    (validate_structure_characterization [((0 : ℚ), (2 : ℚ)), ((2 : ℚ), (2 : ℚ))] [0, 1]
      [((0 : ℚ), (2 : ℚ))] [7] (by decide) (by decide)).1.mpr
      (by norm_num)⟩

theorem filter_le_split (n : ℕ) (P : Fin n × Fin n → Prop) [DecidablePred P]
    (hdiag : ∀ i : Fin n, P (i, i)) :
    (Finset.univ.filter fun p : Fin n × Fin n => p.1 ≤ p.2 ∧ P p).card =
      (Finset.univ.filter fun p : Fin n × Fin n => p.1 < p.2 ∧ P p).card + n := by
  have hsplit : (Finset.univ.filter fun p : Fin n × Fin n => p.1 ≤ p.2 ∧ P p) =
      (Finset.univ.filter fun p : Fin n × Fin n => p.1 < p.2 ∧ P p) ∪
        (Finset.univ.filter fun p : Fin n × Fin n => p.1 = p.2 ∧ P p) := by
    rw [← Finset.filter_or]
    apply Finset.filter_congr
    intro p _
    rw [le_iff_lt_or_eq, or_and_right]
  have hdisj : Disjoint
      (Finset.univ.filter fun p : Fin n × Fin n => p.1 < p.2 ∧ P p)
      (Finset.univ.filter fun p : Fin n × Fin n => p.1 = p.2 ∧ P p) := by
    rw [Finset.disjoint_left]
    intro p hp1 hp2
    have h1 := (Finset.mem_filter.mp hp1).2.1
    have h2 := (Finset.mem_filter.mp hp2).2.1
    rw [h2] at h1
    exact lt_irrefl _ h1
  have hdiagset : (Finset.univ.filter fun p : Fin n × Fin n => p.1 = p.2 ∧ P p) =
      Finset.univ.image (fun i : Fin n => (i, i)) := by
    ext p
    simp only [Finset.mem_filter, Finset.mem_univ, true_and, Finset.mem_image]
    constructor
    · rintro ⟨heq, _⟩
      exact ⟨p.1, by rw [Prod.ext_iff]; exact ⟨rfl, heq⟩⟩
    · rintro ⟨i, rfl⟩
      exact ⟨rfl, hdiag i⟩
  have hdiagcard : (Finset.univ.filter fun p : Fin n × Fin n => p.1 = p.2 ∧ P p).card = n := by
    rw [hdiagset, Finset.card_image_of_injective _ (fun a b h => (Prod.ext_iff.mp h).1),
      Finset.card_univ, Fintype.card_fin]
  rw [hsplit, Finset.card_union_of_disjoint hdisj, hdiagcard]

theorem agreeCount_split (y : List ℕ) : agreeCount y = strictAgreeCount y + y.length := by
  unfold agreeCount strictAgreeCount
  exact filter_le_split y.length (fun p => y.get p.1 = y.get p.2) (fun i => rfl)

theorem matchesCount_split (yr ye : List ℕ) :
    matchesCount yr ye = strictMatchesCount yr ye + yr.length := by
  unfold matchesCount strictMatchesCount
  exact filter_le_split yr.length
    (fun p => yr.get p.1 = yr.get p.2 ∧ ye.getD p.1.val 0 = ye.getD p.2.val 0)
    (fun i => ⟨rfl, rfl⟩)

theorem samples_two_eval :
    intervals_to_samples [((0 : ℚ), 1), ((1 : ℚ), 2)] [0, 1] 1 = [0, 1] := by
  norm_num [intervals_to_samples, List.range_succ, List.find?]
  decide

theorem samples_one_eval :
    intervals_to_samples [((0 : ℚ), 1)] [0] 1 = [0] := by
  norm_num [intervals_to_samples, List.range_succ, List.find?]

/-- C1 counterexample: on the validated identical two-frame segmentation
with two distinct labels, the agreement sums the source divides by are 2
(the diagonal self-pairs), not the 0 cells strictly above the diagonal:
np.triu keeps the main diagonal, so self-pairs do contribute to matches
and to both denominators, contradicting the claim. -/
theorem pairwise_strict_upper_counterexample :
    validate_structure [((0 : ℚ), 1), ((1 : ℚ), 2)] [0, 1]
      [((0 : ℚ), 1), ((1 : ℚ), 2)] [0, 1] = Except.ok () ∧
    agreeCount (index_labels (intervals_to_samples [((0 : ℚ), 1), ((1 : ℚ), 2)] [0, 1] 1)) = 2 ∧
    strictAgreeCount
      (index_labels (intervals_to_samples [((0 : ℚ), 1), ((1 : ℚ), 2)] [0, 1] 1)) = 0 ∧
    matchesCount (index_labels (intervals_to_samples [((0 : ℚ), 1), ((1 : ℚ), 2)] [0, 1] 1))
      (index_labels (intervals_to_samples [((0 : ℚ), 1), ((1 : ℚ), 2)] [0, 1] 1)) = 2 ∧
    strictMatchesCount
      (index_labels (intervals_to_samples [((0 : ℚ), 1), ((1 : ℚ), 2)] [0, 1] 1))
      (index_labels (intervals_to_samples [((0 : ℚ), 1), ((1 : ℚ), 2)] [0, 1] 1)) = 0 := by
  refine ⟨by norm_num [validate_structure, validate_pair, allcloseZero, allcloseQ],
    ?_, ?_, ?_, ?_⟩ <;>
    rw [samples_two_eval] <;> decide

/-- C1 amended: the same-cluster matrices of pairwise are upper-triangular
INCLUDING the main diagonal (np.triu with k = 0), so the n self-pairs
(i, i) contribute to the match count and to both precision and recall
denominators: each count exceeds its strictly-above-diagonal variant by
exactly the frame count. -/
theorem pairwise_triu_retains_diagonal (yr ye : List ℕ) :
    agreeCount yr = strictAgreeCount yr + yr.length ∧
    agreeCount ye = strictAgreeCount ye + ye.length ∧
    matchesCount yr ye = strictMatchesCount yr ye + yr.length :=
  ⟨agreeCount_split yr, agreeCount_split ye, matchesCount_split yr ye⟩

/-- C9: for a validated input whose frame sampling yields at least one
frame on each side, the pairwise denominators agree_ref.sum() and
agree_est.sum() are at least the respective frame counts (the retained
diagonal is all true) and hence strictly positive, so the precision and
recall divisions never divide by zero. -/
theorem pairwise_denominators_positive (ri : List (ℚ × ℚ)) (rl : List ℕ)
    (ei : List (ℚ × ℚ)) (el : List ℕ) (fs : ℚ)
    (hv : validate_structure ri rl ei el = Except.ok ())
    (hnr : 0 < (intervals_to_samples ri rl fs).length)
    (hne : 0 < (intervals_to_samples ei el fs).length) :
    (index_labels (intervals_to_samples ri rl fs)).length ≤
      agreeCount (index_labels (intervals_to_samples ri rl fs)) ∧
    (index_labels (intervals_to_samples ei el fs)).length ≤
      agreeCount (index_labels (intervals_to_samples ei el fs)) ∧
    0 < agreeCount (index_labels (intervals_to_samples ri rl fs)) ∧
    0 < agreeCount (index_labels (intervals_to_samples ei el fs)) := by
  have hle : ∀ y : List ℕ, y.length ≤ agreeCount y := by
    intro y
    rw [agreeCount_split]
    exact Nat.le_add_left _ _
  have hlr : (index_labels (intervals_to_samples ri rl fs)).length =
      (intervals_to_samples ri rl fs).length := by
    unfold index_labels
    exact List.length_map _ _
  have hlee : (index_labels (intervals_to_samples ei el fs)).length =
      (intervals_to_samples ei el fs).length := by
    unfold index_labels
    exact List.length_map _ _
  refine ⟨hle _, hle _, ?_, ?_⟩
  · exact Nat.lt_of_lt_of_le (by rw [hlr]; exact hnr) (hle _)
  · exact Nat.lt_of_lt_of_le (by rw [hlee]; exact hne) (hle _)

theorem pairwise_denominators_positive_witness :
    validate_structure [((0 : ℚ), 1)] [0] [((0 : ℚ), 1)] [0] = Except.ok () ∧
    ((index_labels (intervals_to_samples [((0 : ℚ), 1)] [0] 1)).length ≤
      agreeCount (index_labels (intervals_to_samples [((0 : ℚ), 1)] [0] 1)) ∧
    (index_labels (intervals_to_samples [((0 : ℚ), 1)] [0] 1)).length ≤
      agreeCount (index_labels (intervals_to_samples [((0 : ℚ), 1)] [0] 1)) ∧
    0 < agreeCount (index_labels (intervals_to_samples [((0 : ℚ), 1)] [0] 1)) ∧
    0 < agreeCount (index_labels (intervals_to_samples [((0 : ℚ), 1)] [0] 1))) :=
  ⟨by norm_num [validate_structure, validate_pair, allcloseZero, allcloseQ],
    pairwise_denominators_positive [((0 : ℚ), 1)] [0] [((0 : ℚ), 1)] [0] 1
      (by norm_num [validate_structure, validate_pair, allcloseZero, allcloseQ])
      (by rw [samples_one_eval]; decide)
      (by rw [samples_one_eval]; decide)⟩

theorem pairwiseCore_self (y : List ℕ) (beta : ℚ) (hn : 0 < y.length) :
    pairwiseCore y y beta = (1, 1, 1) := by
  simp only [pairwiseCore]
  have hgd : ∀ i : Fin y.length, y.getD i.val 0 = y.get i := by
    intro i
    rw [List.getD_eq_get?, List.get?_eq_get i.isLt]
    rfl
  have hmc : matchesCount y y = agreeCount y := by
    unfold matchesCount agreeCount
    congr 1
    apply Finset.filter_congr
    intro p _
    constructor
    · rintro ⟨h1, h2, _⟩
      exact ⟨h1, h2⟩
    · rintro ⟨h1, h2⟩
      exact ⟨h1, h2, by rw [hgd p.1, hgd p.2]; exact h2⟩
  have hpos : (agreeCount y : ℚ) ≠ 0 := by
    have hlt : 0 < agreeCount y := by
      rw [agreeCount_split]
      omega
    exact_mod_cast hlt.ne'
  rw [hmc, div_self hpos]
  have hf : f_measure 1 1 beta = 1 := by
    unfold f_measure
    rw [if_neg (by positivity : ¬(beta ^ 2 * 1 + 1 = 0))]
    field_simp
    ring
  rw [hf]

/-- C8: pairwise applied to a validated (intervals, labels) pair as both
reference and estimate, with at least one frame sampled, returns
precision, recall and f-measure all equal to 1. -/
theorem pairwise_identical_perfect (iv : List (ℚ × ℚ)) (l : List ℕ) (fs beta : ℚ)
    (hv : validate_structure iv l iv l = Except.ok ())
    (hn : 0 < (intervals_to_samples iv l fs).length) :
    pairwise iv l iv l fs beta = (1, 1, 1) := by
  unfold pairwise
  apply pairwiseCore_self
  unfold index_labels
  rw [List.length_map]
  exact hn

theorem pairwise_identical_perfect_witness :
    validate_structure [((0 : ℚ), 1)] [0] [((0 : ℚ), 1)] [0] = Except.ok () ∧
    0 < (intervals_to_samples [((0 : ℚ), 1)] [0] 1).length ∧
    pairwise [((0 : ℚ), 1)] [0] [((0 : ℚ), 1)] [0] 1 1 = (1, 1, 1) :=
  ⟨by norm_num [validate_structure, validate_pair, allcloseZero, allcloseQ],
    by rw [samples_one_eval]; decide,
    pairwise_identical_perfect [((0 : ℚ), 1)] [0] 1 1
      (by norm_num [validate_structure, validate_pair, allcloseZero, allcloseQ])
      (by rw [samples_one_eval]; decide)⟩

theorem sumMapMulLeft (r : ℝ) (l : List ℝ) (f : ℝ → ℝ) :
    (l.map fun x => r * f x).sum = r * (l.map f).sum := by
  induction l with
  | nil => simp
  | cons a t ih => simp [ih, mul_add]

theorem sumMapNeg (l : List ℕ) (f : ℕ → ℝ) :
    (l.map fun x => -(f x)).sum = -((l.map f).sum) := by
  induction l with
  | nil => simp
  | cons a t ih =>
    simp only [List.map_cons, List.sum_cons, ih, neg_add]

theorem listSum_zero_all (l : List ℝ) (hl : ∀ x ∈ l, 0 ≤ x) (hz : l.sum = 0) :
    ∀ x ∈ l, x = 0 := by
  induction l with
  | nil => intro x hx; cases hx
  | cons a t ih =>
    rw [List.sum_cons] at hz
    have ha : 0 ≤ a := hl a (List.mem_cons_self a t)
    have ht : 0 ≤ t.sum := List.sum_nonneg fun x hx => hl x (List.mem_cons_of_mem a hx)
    have ha0 : a = 0 := le_antisymm (by linarith) ha
    have ht0 : t.sum = 0 := by linarith
    intro x hx
    rcases List.mem_cons.mp hx with rfl | hx
    · exact ha0
    · exact ih (fun z hz => hl z (List.mem_cons_of_mem a hz)) ht0 x hx

theorem sum_mul_entropyL (v : List ℝ) (hv : ∀ x ∈ v, 0 ≤ x) :
    v.sum * entropyL v = -((v.map fun x => x * Real.logb 2 (x / v.sum)).sum) := by
  by_cases hS : v.sum = 0
  · rw [hS, zero_mul]
    symm
    rw [neg_eq_zero]
    apply List.sum_eq_zero
    intro x hx
    obtain ⟨a, ha, rfl⟩ := List.mem_map.mp hx
    rw [listSum_zero_all v hv hS a ha, zero_mul]
  · unfold entropyL
    rw [mul_neg]
    congr 1
    rw [← sumMapMulLeft]
    apply congrArg List.sum
    apply List.map_congr_left
    intro x _
    have hc : v.sum * (x / v.sum) = x := by field_simp
    rw [← mul_assoc, hc]

theorem contingencyF_nonneg (yr ye : List ℕ) (a b : ℕ) : 0 ≤ contingencyF yr ye a b :=
  div_nonneg (Nat.cast_nonneg _) (Nat.cast_nonneg _)

/-- The term the source computes from contingency.T coincides with the
base-2 conditional entropy of the estimated labels given the reference
labels written directly from the normalized contingency table. -/
theorem predGivenRef_eq_condEntropy (yr ye : List ℕ) :
    predGivenRef yr ye = condEntropyEstGivenRef yr ye := by
  unfold predGivenRef condEntropyEstGivenRef
  rw [← sumMapNeg]
  apply congrArg List.sum
  apply List.map_congr_left
  intro a _
  have hnn : ∀ x ∈ (distinctLabels ye).map fun b => contingencyF yr ye a b, (0 : ℝ) ≤ x := by
    intro x hx
    obtain ⟨b, hb, rfl⟩ := List.mem_map.mp hx
    exact contingencyF_nonneg yr ye a b
  have h := sum_mul_entropyL ((distinctLabels ye).map fun b => contingencyF yr ye a b) hnn
  rw [List.map_map] at h
  exact h

/-- C2: for a validated input with more than one estimated cluster, the
over-clustering score of nce is 1 minus the base-2 conditional entropy of
the estimated frame labels given the reference frame labels (the term
computed from contingency.T), divided by log2 of the estimated cluster
count. -/
theorem nce_over_clustering_score (ri : List (ℚ × ℚ)) (rl : List ℕ)
    (ei : List (ℚ × ℚ)) (el : List ℕ) (fs : ℚ) (beta : ℝ)
    (hv : validate_structure ri rl ei el = Except.ok ())
    (hE : 1 < (distinctLabels (index_labels (intervals_to_samples ei el fs))).length) :
    (nce ri rl ei el fs beta).1 =
      some (1 -
        condEntropyEstGivenRef (index_labels (intervals_to_samples ri rl fs))
          (index_labels (intervals_to_samples ei el fs)) /
        Real.logb 2
          ((distinctLabels (index_labels (intervals_to_samples ei el fs))).length : ℝ)) := by
  simp only [nce, nceCore]
  rw [if_pos hE, predGivenRef_eq_condEntropy]

theorem nce_over_clustering_score_witness :
    validate_structure [((0 : ℚ), 1), ((1 : ℚ), 2)] [0, 1]
      [((0 : ℚ), 1), ((1 : ℚ), 2)] [0, 1] = Except.ok () ∧
    1 < (distinctLabels
      (index_labels (intervals_to_samples [((0 : ℚ), 1), ((1 : ℚ), 2)] [0, 1] 1))).length ∧
    (nce [((0 : ℚ), 1), ((1 : ℚ), 2)] [0, 1] [((0 : ℚ), 1), ((1 : ℚ), 2)] [0, 1] 1 1).1 =
      some (1 -
        condEntropyEstGivenRef
          (index_labels (intervals_to_samples [((0 : ℚ), 1), ((1 : ℚ), 2)] [0, 1] 1))
          (index_labels (intervals_to_samples [((0 : ℚ), 1), ((1 : ℚ), 2)] [0, 1] 1)) /
        Real.logb 2
          ((distinctLabels
            (index_labels (intervals_to_samples [((0 : ℚ), 1), ((1 : ℚ), 2)] [0, 1] 1))).length :
            ℝ)) :=
  ⟨by norm_num [validate_structure, validate_pair, allcloseZero, allcloseQ],
    by rw [samples_two_eval]; decide,
    nce_over_clustering_score [((0 : ℚ), 1), ((1 : ℚ), 2)] [0, 1]
      [((0 : ℚ), 1), ((1 : ℚ), 2)] [0, 1] 1 1
      (by norm_num [validate_structure, validate_pair, allcloseZero, allcloseQ])
      (by rw [samples_two_eval]; decide)⟩

theorem fMeasureOpt_none (p r : Option ℝ) (beta : ℝ) (h : p = none ∨ r = none) :
    fMeasureOpt p r beta = none := by
  rcases h with rfl | rfl
  · rfl
  · cases p <;> rfl

/-- C3: in nce, a single reference cluster makes the returned S_under NaN
(none) regardless of S_over, a single estimated cluster makes S_over NaN,
and the f-measure combination propagates NaN: if either score is none,
the returned S_F is none rather than a sentinel 0. -/
theorem nce_nan_propagation (ri : List (ℚ × ℚ)) (rl : List ℕ)
    (ei : List (ℚ × ℚ)) (el : List ℕ) (fs : ℚ) (beta : ℝ) :
    ((distinctLabels (index_labels (intervals_to_samples ri rl fs))).length ≤ 1 →
      (nce ri rl ei el fs beta).2.1 = none) ∧
    ((distinctLabels (index_labels (intervals_to_samples ei el fs))).length ≤ 1 →
      (nce ri rl ei el fs beta).1 = none) ∧
    ((nce ri rl ei el fs beta).1 = none ∨ (nce ri rl ei el fs beta).2.1 = none →
      (nce ri rl ei el fs beta).2.2 = none) := by
  refine ⟨?_, ?_, ?_⟩
  · intro h
    simp only [nce, nceCore]
    rw [if_neg (by omega)]
  · intro h
    simp only [nce, nceCore]
    rw [if_neg (by omega)]
  · intro h
    simp only [nce, nceCore] at h ⊢
    exact fMeasureOpt_none _ _ _ h

theorem samples_uniform_eval :
    intervals_to_samples [((0 : ℚ), 2)] [0] 1 = [0, 0] := by
  norm_num [intervals_to_samples, List.range_succ, List.find?]
  decide

theorem nce_nan_propagation_witness :
    (distinctLabels (index_labels (intervals_to_samples [((0 : ℚ), 2)] [0] 1))).length ≤ 1 ∧
    (nce [((0 : ℚ), 2)] [0] [((0 : ℚ), 1), ((1 : ℚ), 2)] [0, 1] 1 1).2.1 = none ∧
    (nce [((0 : ℚ), 2)] [0] [((0 : ℚ), 1), ((1 : ℚ), 2)] [0, 1] 1 1).2.2 = none := by
  have h1 : (distinctLabels (index_labels (intervals_to_samples [((0 : ℚ), 2)] [0] 1))).length ≤ 1 := by
    rw [samples_uniform_eval]
    decide
  have h2 := (nce_nan_propagation [((0 : ℚ), 2)] [0]
    [((0 : ℚ), 1), ((1 : ℚ), 2)] [0, 1] 1 1).1 h1
  exact ⟨h1, h2, (nce_nan_propagation [((0 : ℚ), 2)] [0]
    [((0 : ℚ), 1), ((1 : ℚ), 2)] [0, 1] 1 1).2.2 (Or.inr h2)⟩

theorem contingency_pair_00 : contingencyF [0, 1] [0, 1] 0 0 = 1 / 2 := by
  unfold contingencyF
  norm_num [List.countP_cons]

theorem contingency_pair_01 : contingencyF [0, 1] [0, 1] 0 1 = 0 := by
  unfold contingencyF
  norm_num [List.countP_cons]

theorem contingency_pair_10 : contingencyF [0, 1] [0, 1] 1 0 = 0 := by
  unfold contingencyF
  norm_num [List.countP_cons]

theorem contingency_pair_11 : contingencyF [0, 1] [0, 1] 1 1 = 1 / 2 := by
  unfold contingencyF
  norm_num [List.countP_cons]

theorem entropyL_half_left : entropyL [1 / 2, 0] = 0 := by
  unfold entropyL
  norm_num [Real.logb_one]

theorem entropyL_half_right : entropyL [0, 1 / 2] = 0 := by
  unfold entropyL
  norm_num [Real.logb_one]

theorem distinct_pair_eval : distinctLabels [0, 1] = [0, 1] := by decide

theorem pRefF_pair_0 : pRefF [0, 1] [0, 1] 0 = 1 / 2 := by
  unfold pRefF
  rw [distinct_pair_eval]
  simp only [List.map_cons, List.map_nil, List.sum_cons, List.sum_nil,
    contingency_pair_00, contingency_pair_01]
  norm_num

theorem pRefF_pair_1 : pRefF [0, 1] [0, 1] 1 = 1 / 2 := by
  unfold pRefF
  rw [distinct_pair_eval]
  simp only [List.map_cons, List.map_nil, List.sum_cons, List.sum_nil,
    contingency_pair_10, contingency_pair_11]
  norm_num

theorem pEstF_pair_0 : pEstF [0, 1] [0, 1] 0 = 1 / 2 := by
  unfold pEstF
  rw [distinct_pair_eval]
  simp only [List.map_cons, List.map_nil, List.sum_cons, List.sum_nil,
    contingency_pair_00, contingency_pair_10]
  norm_num

theorem pEstF_pair_1 : pEstF [0, 1] [0, 1] 1 = 1 / 2 := by
  unfold pEstF
  rw [distinct_pair_eval]
  simp only [List.map_cons, List.map_nil, List.sum_cons, List.sum_nil,
    contingency_pair_01, contingency_pair_11]
  norm_num

theorem predGivenRef_pair_eval : predGivenRef [0, 1] [0, 1] = 0 := by
  unfold predGivenRef
  rw [distinct_pair_eval]
  simp only [List.map_cons, List.map_nil, List.sum_cons, List.sum_nil,
    contingency_pair_00, contingency_pair_01, contingency_pair_10, contingency_pair_11,
    pRefF_pair_0, pRefF_pair_1, entropyL_half_left, entropyL_half_right]
  ring

theorem trueGivenEst_pair_eval : trueGivenEst [0, 1] [0, 1] = 0 := by
  unfold trueGivenEst
  rw [distinct_pair_eval]
  simp only [List.map_cons, List.map_nil, List.sum_cons, List.sum_nil,
    contingency_pair_00, contingency_pair_01, contingency_pair_10, contingency_pair_11,
    pEstF_pair_0, pEstF_pair_1, entropyL_half_left, entropyL_half_right]
  ring

theorem index_pair_eval : index_labels [0, 1] = [0, 1] := by decide

theorem nce_pair_over_eval :
    (nce [((0 : ℚ), 1), ((1 : ℚ), 2)] [0, 1]
      [((0 : ℚ), 1), ((1 : ℚ), 2)] [0, 1] 1 1).1 = some 1 := by
  unfold nce
  rw [samples_two_eval, index_pair_eval]
  simp only [nceCore]
  rw [distinct_pair_eval]
  rw [if_pos (by decide : 1 < ([0, 1] : List ℕ).length)]
  rw [predGivenRef_pair_eval, zero_div, sub_zero]

theorem nce_pair_under_eval :
    (nce [((0 : ℚ), 1), ((1 : ℚ), 2)] [0, 1]
      [((0 : ℚ), 1), ((1 : ℚ), 2)] [0, 1] 1 1).2.1 = some 1 := by
  unfold nce
  rw [samples_two_eval, index_pair_eval]
  simp only [nceCore]
  rw [distinct_pair_eval]
  rw [if_pos (by decide : 1 < ([0, 1] : List ℕ).length)]
  rw [trueGivenEst_pair_eval, zero_div, sub_zero]

/-- C10: the f-measure of nce is computed with S_over in the precision
position and S_under in the recall position, so when both scores are
defined and the denominator is non-zero,
S_F = (1 + beta^2) * S_over * S_under / (beta^2 * S_over + S_under); the
formula is not symmetric in its two operands for beta different from 1,
as the concrete values 1 and 1/2 at beta = 2 show. -/
theorem nce_f_measure_asymmetric :
    (∀ (ri : List (ℚ × ℚ)) (rl : List ℕ) (ei : List (ℚ × ℚ)) (el : List ℕ)
        (fs : ℚ) (beta so su : ℝ),
      (nce ri rl ei el fs beta).1 = some so →
      (nce ri rl ei el fs beta).2.1 = some su →
      beta ^ 2 * so + su ≠ 0 →
      (nce ri rl ei el fs beta).2.2 =
        some ((1 + beta ^ 2) * so * su / (beta ^ 2 * so + su))) ∧
    fMeasureR 1 (1 / 2) 2 ≠ fMeasureR (1 / 2) 1 2 := by
  constructor
  · intro ri rl ei el fs beta so su h1 h2 h3
    have h4 : (nce ri rl ei el fs beta).2.2 =
        fMeasureOpt (nce ri rl ei el fs beta).1 (nce ri rl ei el fs beta).2.1 beta := rfl
    rw [h4, h1, h2]
    show some (fMeasureR so su beta) = _
    unfold fMeasureR
    rw [if_neg h3]
  · have h1 : fMeasureR 1 (1 / 2) 2 = 5 / 9 := by
      unfold fMeasureR
      rw [if_neg (by norm_num)]
      norm_num
    have h2 : fMeasureR (1 / 2) 1 2 = 5 / 6 := by
      unfold fMeasureR
      rw [if_neg (by norm_num)]
      norm_num
    rw [h1, h2]
    norm_num

theorem nce_f_measure_asymmetric_witness :
    (nce [((0 : ℚ), 1), ((1 : ℚ), 2)] [0, 1]
      [((0 : ℚ), 1), ((1 : ℚ), 2)] [0, 1] 1 1).1 = some 1 ∧
    (nce [((0 : ℚ), 1), ((1 : ℚ), 2)] [0, 1]
      [((0 : ℚ), 1), ((1 : ℚ), 2)] [0, 1] 1 1).2.1 = some 1 ∧
    ((1 : ℝ) ^ 2 * 1 + 1 ≠ 0) ∧
    (nce [((0 : ℚ), 1), ((1 : ℚ), 2)] [0, 1]
      [((0 : ℚ), 1), ((1 : ℚ), 2)] [0, 1] 1 1).2.2 =
      some ((1 + (1 : ℝ) ^ 2) * 1 * 1 / ((1 : ℝ) ^ 2 * 1 + 1)) :=
  ⟨nce_pair_over_eval, nce_pair_under_eval, by norm_num,
    nce_f_measure_asymmetric.1 [((0 : ℚ), 1), ((1 : ℚ), 2)] [0, 1]
      [((0 : ℚ), 1), ((1 : ℚ), 2)] [0, 1] 1 1 1 1
      nce_pair_over_eval nce_pair_under_eval (by norm_num)⟩
